import Mathlib

/-!
The block store and the beacon-committee handler of chaind.

A shallow embedding of

* `services/chaindb/postgresql/blocks.go` (`SetBlock`, `EmptySlots`,
  `IndeterminateBlocks`), with the table `t_blocks` as a list of rows and each
  SQL statement as a function on that list;
* `services/beaconcommittees/standard/handler.go`
  (`OnBeaconChainHeadUpdated`, `updateBeaconCommitteesForEpoch`), with the
  external collaborators as explicit scripts of outcomes.

Slots, epochs, indices and counts are `uint64` in the source; the code does no
arithmetic on them beyond what the chain clock does, so they are `Nat` here.
Byte strings (`[32]byte`, `[]byte`) are lists of byte values.
-/

namespace Chaind

/-! ## Block store: data model -/

/-- Byte strings: roots, signatures, graffiti. -/
abbrev Bytes := List Nat

/-- The Go struct `chaindb.Block`; `Canonical` is a `*bool`, nil being unknown. -/
structure Block where
  Slot : Nat
  ProposerIndex : Nat
  Root : Bytes
  Graffiti : Bytes
  RANDAOReveal : Bytes
  BodyRoot : Bytes
  ParentRoot : Bytes
  StateRoot : Bytes
  Canonical : Option Bool
  ETH1BlockHash : Bytes
  ETH1DepositCount : Nat
  ETH1DepositRoot : Bytes
deriving DecidableEq, Repr

/-- The Go struct `sql.NullBool` (its field `Bool` is `Value` here): SQL NULL unless
`Valid`. -/
structure NullBool where
  Valid : Bool
  Value : Bool
deriving DecidableEq, Repr

/-- The column value a `sql.NullBool` parameter is stored as (`none` is NULL). -/
def NullBool.toColumn (n : NullBool) : Option Bool :=
  if n.Valid then some n.Value else none

/-- A row of the table `t_blocks`. -/
structure Row where
  f_slot : Nat
  f_proposer_index : Nat
  f_root : Bytes
  f_graffiti : Bytes
  f_randao_reveal : Bytes
  f_body_root : Bytes
  f_parent_root : Bytes
  f_state_root : Bytes
  f_canonical : Option Bool
  f_eth1_block_hash : Bytes
  f_eth1_deposit_count : Nat
  f_eth1_deposit_root : Bytes
deriving DecidableEq, Repr

/-- The table `t_blocks`, rows in physical order. -/
abbrev Table := List Row

/-- The conflict target `(f_slot, f_root)` of a row. -/
def Row.key (r : Row) : Nat × Bytes := (r.f_slot, r.f_root)

/-- The unique constraint on `(f_slot, f_root)` that `ON CONFLICT` relies on. -/
def Table.WF (t : Table) : Prop := (t.map Row.key).Nodup

instance (t : Table) : Decidable t.WF := by
  unfold Table.WF; infer_instance

/-- Errors of the store. -/
inductive StoreError where
  | ErrNoTransaction
  | beginTx
  | exec
deriving DecidableEq, Repr

instance {α : Type} [DecidableEq α] : DecidableEq (Except StoreError α) := fun a b =>
  match a, b with
  | .ok x, .ok y => if h : x = y then isTrue (by rw [h]) else isFalse (by intro e; cases e; exact h rfl)
  | .error x, .error y => if h : x = y then isTrue (by rw [h]) else isFalse (by intro e; cases e; exact h rfl)
  | .ok _, .error _ => isFalse (by intro e; cases e)
  | .error _, .ok _ => isFalse (by intro e; cases e)

/-- What the store methods see of their `ctx` and of the database connection:
whether the context carries a transaction (`s.tx(ctx) != nil`), whether a
`BeginTx` issued by a query method would fail, and whether the engine fails the
statement handed to it. -/
structure Ctx where
  tx : Bool
  beginTxFails : Bool
  execFails : Bool
deriving DecidableEq, Repr

/-! ## Block store: `SetBlock` -/

/-- The `DO UPDATE SET ...` list of `SetBlock`: the columns it assigns from the
proposed row `excluded`; `f_slot`, `f_body_root` and `f_parent_root` are not in
the list. -/
def doUpdate (r excluded : Row) : Row :=
  { r with
    f_proposer_index := excluded.f_proposer_index
    f_root := excluded.f_root
    f_graffiti := excluded.f_graffiti
    f_randao_reveal := excluded.f_randao_reveal
    f_state_root := excluded.f_state_root
    f_canonical := excluded.f_canonical
    f_eth1_block_hash := excluded.f_eth1_block_hash
    f_eth1_deposit_count := excluded.f_eth1_deposit_count
    f_eth1_deposit_root := excluded.f_eth1_deposit_root }

/-- The statement `INSERT INTO t_blocks ... ON CONFLICT (f_slot,f_root) DO UPDATE
SET ...`: a row with the proposed key is updated in place, otherwise the proposed
row is inserted. -/
def insertOnConflict (t : Table) (excluded : Row) : Table :=
  if t.any (fun r => decide (r.key = excluded.key)) then
    t.map (fun r => if r.key = excluded.key then doUpdate r excluded else r)
  else
    t ++ [excluded]

/-- The twelve parameters `$1..$12` that `SetBlock` binds, as the proposed row. -/
def Block.values (block : Block) (canonical : NullBool) : Row :=
  { f_slot := block.Slot
    f_proposer_index := block.ProposerIndex
    f_root := block.Root
    f_graffiti := block.Graffiti
    f_randao_reveal := block.RANDAOReveal
    f_body_root := block.BodyRoot
    f_parent_root := block.ParentRoot
    f_state_root := block.StateRoot
    f_canonical := canonical.toColumn
    f_eth1_block_hash := block.ETH1BlockHash
    f_eth1_deposit_count := block.ETH1DepositCount
    f_eth1_deposit_root := block.ETH1DepositRoot }

/-- The local `canonical` of `SetBlock`: valid exactly when `block.Canonical` is
not nil. -/
def canonicalParam (block : Block) : NullBool :=
  match block.Canonical with
  | some v => { Valid := true, Value := v }
  | none => { Valid := false, Value := false }

/-- `Service.SetBlock`: fails without a transaction in the context, otherwise
executes the upsert and returns the statement's error, if any. The table
returned is the table as the transaction sees it afterwards. -/
def SetBlock (ctx : Ctx) (t : Table) (block : Block) : Except StoreError Table :=
  if !ctx.tx then
    .error .ErrNoTransaction
  else
    let canonical := canonicalParam block
    if ctx.execFails then
      .error .exec
    else
      .ok (insertOnConflict t (block.values canonical))

/-- A sequence of `SetBlock` calls in one context, stopping at the first error. -/
def SetBlocks (ctx : Ctx) (t : Table) : List Block → Except StoreError Table
  | [] => .ok t
  | b :: bs =>
    match SetBlock ctx t b with
    | .ok t' => SetBlocks ctx t' bs
    | .error e => .error e

/-! ## Block store: the two diagnostic queries -/

/-- The set-returning function `generate_series(start, stop, 1)`: the integers
from `start` to `stop`, both included; empty when `start > stop`. -/
def generate_series (start stop : Nat) : List Nat :=
  List.range' start (stop + 1 - start)

/-- The join `generate_series(...) missed LEFT JOIN t_blocks ON missed =
t_blocks.f_slot`: one output row per matching block, and one row with the block
side NULL for a value without a match. -/
def leftJoinBlocks (series : List Nat) (t : Table) : List (Nat × Option Row) :=
  series.flatMap (fun missed =>
    let matching := t.filter (fun r => decide (missed = r.f_slot))
    if matching.isEmpty then [(missed, none)]
    else matching.map (fun r => (missed, some r)))

/-- The query of `EmptySlots`: `SELECT missed FROM ... WHERE f_slot IS NULL`. -/
def emptySlotsQuery (t : Table) (minSlot maxSlot : Nat) : List Nat :=
  ((leftJoinBlocks (generate_series minSlot maxSlot) t).filter
    (fun p => p.2.isNone)).map Prod.fst

/-- `Service.EmptySlots`: uses the transaction of the context or begins its own,
runs the query and collects the rows in the order returned. -/
def EmptySlots (ctx : Ctx) (t : Table) (minSlot maxSlot : Nat) :
    Except StoreError (List Nat) :=
  if !ctx.tx && ctx.beginTxFails then
    .error .beginTx
  else if ctx.execFails then
    .error .exec
  else
    .ok (emptySlotsQuery t minSlot maxSlot)

/-- The `WHERE` clause of `IndeterminateBlocks`:
`f_slot >= $1 AND f_slot < $2 AND f_canonical IS NULL`. -/
def indeterminateWhere (minSlot maxSlot : Nat) (r : Row) : Bool :=
  decide (r.f_slot ≥ minSlot) && decide (r.f_slot < maxSlot) && r.f_canonical.isNone

/-- The order of `ORDER BY f_slot`. -/
def orderBySlot (a b : Row) : Prop := a.f_slot ≤ b.f_slot

instance : DecidableRel orderBySlot := fun a b => by
  unfold orderBySlot; infer_instance

instance : IsTotal Row orderBySlot := ⟨fun a b => Nat.le_total a.f_slot b.f_slot⟩

instance : IsTrans Row orderBySlot := ⟨fun _ _ _ h1 h2 => Nat.le_trans h1 h2⟩

/-- The rows selected by `IndeterminateBlocks` in the order `ORDER BY f_slot`
(rows of equal slot keep their table order). -/
def indeterminateRows (t : Table) (minSlot maxSlot : Nat) : List Row :=
  (t.filter (indeterminateWhere minSlot maxSlot)).insertionSort orderBySlot

/-- The query of `IndeterminateBlocks`: `SELECT f_root FROM t_blocks WHERE ...
ORDER BY f_slot`. -/
def indeterminateQuery (t : Table) (minSlot maxSlot : Nat) : List Bytes :=
  (indeterminateRows t minSlot maxSlot).map Row.f_root

/-- `Service.IndeterminateBlocks`: uses the transaction of the context or begins
its own, runs the query and collects the roots in the order returned. -/
def IndeterminateBlocks (ctx : Ctx) (t : Table) (minSlot maxSlot : Nat) :
    Except StoreError (List Bytes) :=
  if !ctx.tx && ctx.beginTxFails then
    .error .beginTx
  else if ctx.execFails then
    .error .exec
  else
    .ok (indeterminateQuery t minSlot maxSlot)

/-- The marker stored for key `(slot, root)`, if a row with that key exists. -/
def canonicalAt (t : Table) (k : Nat × Bytes) : Option (Option Bool) :=
  (t.find? (fun r => decide (r.key = k))).map Row.f_canonical

/-! ## Beacon-committee handler: data model -/

/-- Go errors, by their message. -/
abbrev Error := String

/-- The weighted semaphore of `golang.org/x/sync/semaphore` behind
`s.activitySem`, without its queue of waiters: the handler only ever calls
`TryAcquire` and `Release`, neither of which enqueues. -/
structure Weighted where
  size : Nat
  cur : Nat
deriving DecidableEq, Repr

/-- `Weighted.TryAcquire(n)`: `success := s.size-s.cur >= n`, and on success
`s.cur += n`. -/
def Weighted.TryAcquire (s : Weighted) (n : Nat) : Bool × Weighted :=
  if (s.size : Int) - (s.cur : Int) ≥ (n : Int) then (true, { s with cur := s.cur + n })
  else (false, s)

/-- `Weighted.Release(n)`: `s.cur -= n`, panicking (`none`) when that would be
negative. -/
def Weighted.Release (s : Weighted) (n : Nat) : Option Weighted :=
  if s.cur < n then none else some { s with cur := s.cur - n }

/-- The run guard is free when a `TryAcquire(1)` would succeed. -/
def Weighted.free (s : Weighted) : Prop := (s.TryAcquire 1).1 = true

instance (s : Weighted) : Decidable s.free := by
  unfold Weighted.free; infer_instance

/-- A committee as the chain-node client returns it. -/
structure APIBeaconCommittee where
  Slot : Nat
  Index : Nat
  Validators : List Nat
deriving DecidableEq, Repr

/-- The Go struct `chaindb.BeaconCommittee`. -/
structure BeaconCommittee where
  Slot : Nat
  Index : Nat
  Committee : List Nat
deriving DecidableEq, Repr

/-- Progress Metadata of the handler: the last epoch fully processed. -/
structure Metadata where
  last_processed_epoch : Nat
deriving DecidableEq, Repr

/-- A call that leaves the process, or the metrics hook, with its outcome. -/
inductive Event where
  | getMetadata (ok : Bool)
  | BeaconCommittees (stateID : String) (ok : Bool)
  | BeginTx (ok : Bool)
  | SetBeaconCommittee (c : BeaconCommittee) (ok : Bool)
  | CommitTx (ok : Bool)
  | cancel
  | monitorEpochProcessed (epoch : Nat)
deriving DecidableEq, Repr

/-- A line written to the logger, with the epoch field when the logger has one. -/
structure LogLine where
  level : String
  epoch : Option Nat
  msg : String
deriving DecidableEq, Repr

/-- Everything outside the run guard that the handler can read or change: the
number of external calls made so far, the committee writes committed, the
persisted Progress Metadata, the calls made and the log. -/
structure World where
  tick : Nat
  committees : List BeaconCommittee
  metadata : Metadata
  events : List Event
  log : List LogLine
deriving DecidableEq, Repr

/-- The outcome of every external call as a function of how many external calls
came before it and of its arguments: `none` is a nil error. -/
structure Env where
  BeaconCommittees : Nat → String → Except Error (List APIBeaconCommittee)
  BeginTx : Nat → Option Error
  SetBeaconCommittee : Nat → BeaconCommittee → Option Error
  CommitTx : Nat → Option Error

/-- The chain clock `s.chainTime`, an external collaborator taken as given. -/
structure ChainTime where
  SlotToEpoch : Nat → Nat
  FirstSlotOfEpoch : Nat → Nat

/-- Records an external call: one more tick, one more event. -/
def World.call (w : World) (e : Event) : World :=
  { w with tick := w.tick + 1, events := w.events ++ [e] }

/-- Records an event that is not an external call with an outcome. -/
def World.emit (w : World) (e : Event) : World :=
  { w with events := w.events ++ [e] }

/-- Writes a log line. -/
def World.logLine (w : World) (level : String) (epoch : Option Nat) (msg : String) : World :=
  { w with log := w.log ++ [{ level := level, epoch := epoch, msg := msg }] }

/-- The service: the run guard and the rest. -/
structure Service where
  activitySem : Weighted
  world : World
deriving DecidableEq, Repr

/-- The two methods of the service that `OnBeaconChainHeadUpdated` calls,
`getMetadata` and `catchup`, taken as given, with the chain clock. They act on
the world only: the run guard is acquired and released by the handler alone. -/
structure Deps where
  chainTime : ChainTime
  getMetadata : World → Except Error Metadata × World
  catchup : Metadata → World → World

/-! ## Beacon-committee handler: operations -/

/-- `Service.OnBeaconChainHeadUpdated`. The result is `none` only if `Release`
panics. -/
def OnBeaconChainHeadUpdated (d : Deps) (s : Service) (slot : Nat)
    (epochTransition : Bool) : Option Service :=
  if !epochTransition then
    some s
  else
    let (acquired, sem) := s.activitySem.TryAcquire 1
    if !acquired then
      some { s with world := s.world.logLine "debug" none "Another handler running" }
    else
      let epoch := d.chainTime.SlotToEpoch slot
      match d.getMetadata s.world with
      | (.error _, w) =>
        (sem.Release 1).map (fun sem1 =>
          { activitySem := sem1
            world := w.logLine "error" (some epoch) "Failed to obtain metadata" })
      | (.ok md, w) =>
        let w1 := d.catchup md w
        (sem.Release 1).map (fun sem1 => { activitySem := sem1, world := w1 })

/-- The conversion at the head of the loop body of
`updateBeaconCommitteesForEpoch`. -/
def dbBeaconCommittee (beaconCommittee : APIBeaconCommittee) : BeaconCommittee :=
  { Slot := beaconCommittee.Slot
    Index := beaconCommittee.Index
    Committee := beaconCommittee.Validators }

/-- The loop `for _, beaconCommittee := range beaconCommittees` of
`updateBeaconCommitteesForEpoch`, returning the error it returns early with. -/
def writeBeaconCommittees (env : Env) : List APIBeaconCommittee → World → Option Error × World
  | [], w => (none, w)
  | beaconCommittee :: rest, w =>
    let c := dbBeaconCommittee beaconCommittee
    match env.BeginTx w.tick with
    | some err =>
      (some err, (w.call (.BeginTx false)).logLine "error" none
        "Failed to begin transaction for committee")
    | none =>
      let w1 := w.call (.BeginTx true)
      match env.SetBeaconCommittee w1.tick c with
      | some err =>
        (some ("failed to set beacon committee: " ++ err),
          (w1.call (.SetBeaconCommittee c false)).emit .cancel)
      | none =>
        let w2 := w1.call (.SetBeaconCommittee c true)
        match env.CommitTx w2.tick with
        | some err =>
          (some err, ((w2.call (.CommitTx false)).logLine "error" none
            "Failed to commit transaction").emit .cancel)
        | none =>
          writeBeaconCommittees env rest
            { w2.call (.CommitTx true) with committees := w2.committees ++ [c] }

/-- `Service.updateBeaconCommitteesForEpoch`. -/
def updateBeaconCommitteesForEpoch (env : Env) (chainTime : ChainTime) (epoch : Nat)
    (w : World) : Option Error × World :=
  let w0 := w.logLine "trace" (some epoch) "Updating beacon committees"
  let stateID := toString (chainTime.FirstSlotOfEpoch epoch)
  match env.BeaconCommittees w0.tick stateID with
  | .error err =>
    (some ("failed to fetch beacon committees: " ++ err),
      w0.call (.BeaconCommittees stateID false))
  | .ok beaconCommittees =>
    match writeBeaconCommittees env beaconCommittees
        (w0.call (.BeaconCommittees stateID true)) with
    | (some err, w1) => (some err, w1)
    | (none, w1) => (none, w1.emit (.monitorEpochProcessed epoch))

/-- The epochs reported processed, in the order reported. -/
def processedEpochs (events : List Event) : List Nat :=
  events.filterMap (fun e =>
    match e with
    | .monitorEpochProcessed epoch => some epoch
    | _ => none)

/-- What a run leaves behind besides the log. -/
def Service.effects (s : Service) : Weighted × Nat × List BeaconCommittee × Metadata × List Event :=
  (s.activitySem, s.world.tick, s.world.committees, s.world.metadata, s.world.events)

/-! ## Sample inputs -/

/-- A chain clock with 32 slots to the epoch. -/
def clock32 : ChainTime :=
  { SlotToEpoch := fun slot => slot / 32
    FirstSlotOfEpoch := fun epoch => epoch * 32 }

/-- An environment in which every external call succeeds and every epoch has the
two committees `0` and `1`. -/
def healthyEnv : Env :=
  { BeaconCommittees := fun _ stateID =>
      .ok [{ Slot := stateID.length, Index := 0, Validators := [1, 2] },
           { Slot := stateID.length, Index := 1, Validators := [3] }]
    BeginTx := fun _ => none
    SetBeaconCommittee := fun _ _ => none
    CommitTx := fun _ => none }

/-- A world with nothing done yet and Progress Metadata at epoch `last`. -/
def freshWorld (last : Nat) : World :=
  { tick := 0, committees := [], metadata := { last_processed_epoch := last },
    events := [], log := [] }

/-- A binary run guard holding `cur` units. -/
def guard (cur : Nat) : Weighted := { size := 1, cur := cur }

/-- Sample dependencies for concrete instances, stand-ins for the service's own
`getMetadata` and `catchup`: the read returns the persisted metadata, or fails
when `readFails`; catch-up ingests the one epoch after the last processed. -/
def sampleDeps (readFails : Bool) : Deps :=
  { chainTime := clock32
    getMetadata := fun w =>
      if readFails then (.error "unavailable", w.call (.getMetadata false))
      else (.ok w.metadata, w.call (.getMetadata true))
    catchup := fun md w =>
      (updateBeaconCommitteesForEpoch healthyEnv clock32 (md.last_processed_epoch + 1) w).2 }

/-- A small block with the given slot, root tag and marker. -/
def mkBlock (slot tag : Nat) (c : Option Bool) : Block :=
  { Slot := slot, ProposerIndex := 0, Root := [tag], Graffiti := [],
    RANDAOReveal := [], BodyRoot := [tag, 1], ParentRoot := [tag, 2],
    StateRoot := [tag, 3], Canonical := c, ETH1BlockHash := [],
    ETH1DepositCount := 0, ETH1DepositRoot := [] }

/-- A context carrying a transaction on a healthy connection. -/
def inTx : Ctx := { tx := true, beginTxFails := false, execFails := false }

/-- A table holding the block of slot 7 with root tag 1, marker unknown. -/
def table7 : Table := [(mkBlock 7 1 none).values (canonicalParam (mkBlock 7 1 none))]

/-- The block of slot 7 with root tag 1 again, now canonical, with another
proposer, body root and parent root. -/
def changedBlock : Block :=
  { mkBlock 7 1 (some true) with ProposerIndex := 5, BodyRoot := [9], ParentRoot := [8] }

/-- A table with unique keys in which the blocks at slots 100 and 101 carry the
same root, the first with unknown marker and the second canonical, and the block
at slot 200 carries it too. -/
def sharedRootTable : Table :=
  [(mkBlock 100 1 none).values (canonicalParam (mkBlock 100 1 none)),
   (mkBlock 101 1 (some true)).values (canonicalParam (mkBlock 101 1 (some true))),
   (mkBlock 200 1 none).values (canonicalParam (mkBlock 200 1 none))]

/-- A table with blocks at slots 100, 102 (twice, a fork) and 104. -/
def forkTable : Table :=
  [(mkBlock 104 3 none).values (canonicalParam (mkBlock 104 3 none)),
   (mkBlock 100 1 (some true)).values (canonicalParam (mkBlock 100 1 (some true))),
   (mkBlock 102 2 none).values (canonicalParam (mkBlock 102 2 none)),
   (mkBlock 102 4 (some false)).values (canonicalParam (mkBlock 102 4 (some false)))]

/-! ## Block store: lemmas on the upsert -/

theorem canonicalParam_toColumn (block : Block) :
    (canonicalParam block).toColumn = block.Canonical := by
  unfold canonicalParam NullBool.toColumn
  cases block.Canonical <;> simp

theorem values_key (block : Block) (c : NullBool) :
    (block.values c).key = (block.Slot, block.Root) := rfl

theorem doUpdate_key {r excluded : Row} (h : r.key = excluded.key) :
    (doUpdate r excluded).key = r.key := by
  simp only [Row.key, Prod.mk.injEq] at h
  simp [doUpdate, Row.key, h.2]

theorem insertOnConflict_hit {t : Table} {excluded : Row}
    (h : ∃ r ∈ t, r.key = excluded.key) :
    insertOnConflict t excluded =
      t.map (fun r => if r.key = excluded.key then doUpdate r excluded else r) := by
  unfold insertOnConflict
  rw [if_pos]
  simpa using h

theorem insertOnConflict_miss {t : Table} {excluded : Row}
    (h : ∀ r ∈ t, r.key ≠ excluded.key) :
    insertOnConflict t excluded = t ++ [excluded] := by
  unfold insertOnConflict
  rw [if_neg]
  simpa using h

theorem upsertRow_key (r excluded : Row) :
    (if r.key = excluded.key then doUpdate r excluded else r).key = r.key := by
  split
  · next h => exact doUpdate_key h
  · rfl

theorem SetBlock_ok {ctx : Ctx} (htx : ctx.tx = true) (hexec : ctx.execFails = false)
    (t : Table) (block : Block) :
    SetBlock ctx t block =
      .ok (insertOnConflict t (block.values (canonicalParam block))) := by
  simp [SetBlock, htx, hexec]

theorem insertOnConflict_keys_hit {t : Table} {excluded : Row}
    (h : ∃ r ∈ t, r.key = excluded.key) :
    (insertOnConflict t excluded).map Row.key = t.map Row.key := by
  rw [insertOnConflict_hit h, List.map_map]
  apply List.map_congr_left
  intro r _
  exact upsertRow_key r _

theorem doUpdate_self (excluded : Row) : doUpdate excluded excluded = excluded := by
  cases excluded; rfl

theorem doUpdate_twice (r excluded : Row) :
    doUpdate (doUpdate r excluded) excluded = doUpdate r excluded := by
  cases r; rfl

theorem insertOnConflict_idem (t : Table) (excluded : Row) :
    insertOnConflict (insertOnConflict t excluded) excluded = insertOnConflict t excluded := by
  by_cases h : ∃ r ∈ t, r.key = excluded.key
  · have h1 : ∃ r ∈ insertOnConflict t excluded, r.key = excluded.key := by
      obtain ⟨r, hr, hk⟩ := h
      have : excluded.key ∈ (insertOnConflict t excluded).map Row.key := by
        rw [insertOnConflict_keys_hit ⟨r, hr, hk⟩]
        exact List.mem_map.mpr ⟨r, hr, hk⟩
      obtain ⟨r1, hr1, hk1⟩ := List.mem_map.mp this
      exact ⟨r1, hr1, hk1⟩
    rw [insertOnConflict_hit h1, insertOnConflict_hit h, List.map_map]
    apply List.map_congr_left
    intro r _
    simp only [Function.comp]
    by_cases hk : r.key = excluded.key
    · simp only [if_pos hk]
      rw [if_pos (by rw [doUpdate_key hk]; exact hk), doUpdate_twice]
    · simp only [if_neg hk]
  · have hmiss : ∀ r ∈ t, r.key ≠ excluded.key := fun r hr hk => h ⟨r, hr, hk⟩
    have h1 : ∃ r ∈ insertOnConflict t excluded, r.key = excluded.key := by
      rw [insertOnConflict_miss hmiss]
      exact ⟨excluded, by simp, rfl⟩
    rw [insertOnConflict_hit h1, insertOnConflict_miss hmiss, List.map_append]
    congr 1
    · conv_rhs => rw [← List.map_id t]
      apply List.map_congr_left
      intro r hr
      simp only [if_neg (hmiss r hr), id]
    · simp [doUpdate_self]

theorem countP_key_zero {t : Table} {k : Nat × Bytes} (h : ∀ r ∈ t, r.key ≠ k) :
    t.countP (fun r => decide (r.key = k)) = 0 := by
  rw [List.countP_eq_zero]
  intro r hr
  simpa using h r hr

theorem countP_key_one {t : Table} {k : Nat × Bytes} (hwf : t.WF)
    (h : ∃ r ∈ t, r.key = k) : t.countP (fun r => decide (r.key = k)) = 1 := by
  induction t with
  | nil => simp at h
  | cons a t ih =>
    unfold Table.WF at hwf
    rw [List.map_cons, List.nodup_cons] at hwf
    by_cases ha : a.key = k
    · have hz : t.countP (fun r => decide (r.key = k)) = 0 := by
        apply countP_key_zero
        intro r hr hk
        exact hwf.1 (List.mem_map.mpr ⟨r, hr, hk.trans ha.symm⟩)
      rw [List.countP_cons_of_pos _ _ (by simpa using ha), hz]
    · obtain ⟨r, hr, hk⟩ := h
      rcases List.mem_cons.mp hr with rfl | hr
      · exact absurd hk ha
      · rw [List.countP_cons_of_neg _ _ (by simpa using ha)]
        exact ih hwf.2 ⟨r, hr, hk⟩

theorem insertOnConflict_mem_key (t : Table) (excluded : Row) :
    ∃ r ∈ insertOnConflict t excluded, r.key = excluded.key := by
  by_cases h : ∃ r ∈ t, r.key = excluded.key
  · obtain ⟨r, hr, hk⟩ := h
    have : excluded.key ∈ (insertOnConflict t excluded).map Row.key := by
      rw [insertOnConflict_keys_hit ⟨r, hr, hk⟩]
      exact List.mem_map.mpr ⟨r, hr, hk⟩
    obtain ⟨r1, hr1, hk1⟩ := List.mem_map.mp this
    exact ⟨r1, hr1, hk1⟩
  · have hmiss : ∀ r ∈ t, r.key ≠ excluded.key := fun r hr hk => h ⟨r, hr, hk⟩
    rw [insertOnConflict_miss hmiss]
    exact ⟨excluded, by simp, rfl⟩

theorem insertOnConflict_WF (t : Table) (excluded : Row) (hwf : t.WF) :
    (insertOnConflict t excluded).WF := by
  by_cases h : ∃ r ∈ t, r.key = excluded.key
  · unfold Table.WF
    rw [insertOnConflict_keys_hit h]
    exact hwf
  · have hmiss : ∀ r ∈ t, r.key ≠ excluded.key := fun r hr hk => h ⟨r, hr, hk⟩
    unfold Table.WF
    rw [insertOnConflict_miss hmiss, List.map_append]
    refine List.Nodup.append hwf (by simp) ?_
    simp only [List.map_cons, List.map_nil, List.disjoint_singleton]
    intro hmem
    obtain ⟨r, hr, hk⟩ := List.mem_map.mp hmem
    exact hmiss r hr hk

theorem insertOnConflict_count (t : Table) (excluded : Row) (hwf : t.WF) :
    (insertOnConflict t excluded).countP (fun r => decide (r.key = excluded.key)) = 1 :=
  countP_key_one (insertOnConflict_WF t excluded hwf) (insertOnConflict_mem_key t excluded)

/-! ## Block store: lemmas on the queries -/

theorem leftJoin_null_rows (series : List Nat) (t : Table) :
    ((leftJoinBlocks series t).filter (fun p => p.2.isNone)).map Prod.fst =
      series.filter (fun missed => decide (∀ r ∈ t, r.f_slot ≠ missed)) := by
  induction series with
  | nil => rfl
  | cons m rest ih =>
    unfold leftJoinBlocks at ih ⊢
    rw [List.flatMap_cons, List.filter_append, List.map_append, ih]
    by_cases hm : ∀ r ∈ t, r.f_slot ≠ m
    · have hnil : t.filter (fun r => decide (m = r.f_slot)) = [] := by
        rw [List.filter_eq_nil_iff]
        intro r hr
        simpa using fun h => hm r hr h.symm
      rw [List.filter_cons_of_pos (by simpa using hm)]
      simp [hnil]
    · have hne : t.filter (fun r => decide (m = r.f_slot)) ≠ [] := by
        intro hnil
        rw [List.filter_eq_nil_iff] at hnil
        apply hm
        intro r hr h
        exact hnil r hr (by simpa using h.symm)
      rw [List.filter_cons_of_neg (by simpa using hm)]
      have hempty : (t.filter (fun r => decide (m = r.f_slot))).isEmpty = false := by
        cases hl : t.filter (fun r => decide (m = r.f_slot)) with
        | nil => exact absurd hl hne
        | cons _ _ => rfl
      simp only [hempty, Bool.false_eq_true, if_false]
      rw [List.filter_map]
      simp [Function.comp_def]

theorem emptySlotsQuery_eq (t : Table) (minSlot maxSlot : Nat) :
    emptySlotsQuery t minSlot maxSlot =
      (generate_series minSlot maxSlot).filter
        (fun missed => decide (∀ r ∈ t, r.f_slot ≠ missed)) :=
  leftJoin_null_rows _ t

theorem mem_generate_series (start stop s : Nat) :
    s ∈ generate_series start stop ↔ start ≤ s ∧ s ≤ stop := by
  unfold generate_series
  rw [List.mem_range'_1]
  omega

theorem query_ok {ctx : Ctx} (hctx : ctx.tx = true ∨ ctx.beginTxFails = false) :
    (!ctx.tx && ctx.beginTxFails) = false := by
  rcases hctx with h | h <;> simp [h]

theorem indeterminateWhere_iff (minSlot maxSlot : Nat) (r : Row) :
    indeterminateWhere minSlot maxSlot r = true ↔
      r.f_canonical = none ∧ minSlot ≤ r.f_slot ∧ r.f_slot < maxSlot := by
  unfold indeterminateWhere
  simp only [Bool.and_eq_true, decide_eq_true_eq, Option.isNone_iff_eq_none]
  tauto

theorem canonicalAt_insertOnConflict (t : Table) (excluded : Row) (k : Nat × Bytes) :
    canonicalAt (insertOnConflict t excluded) k =
      if k = excluded.key then some excluded.f_canonical else canonicalAt t k := by
  unfold canonicalAt
  by_cases h : ∃ r ∈ t, r.key = excluded.key
  · rw [insertOnConflict_hit h, List.find?_map]
    have hcomp : ((fun r : Row => decide (r.key = k)) ∘
        fun r => if r.key = excluded.key then doUpdate r excluded else r) =
        fun r : Row => decide (r.key = k) := by
      funext r
      simp only [Function.comp, upsertRow_key]
    rw [hcomp]
    cases hf : t.find? (fun r => decide (r.key = k)) with
    | none =>
      have hk : k ≠ excluded.key := by
        rintro rfl
        obtain ⟨r, hr, hrk⟩ := h
        have := List.find?_eq_none.mp hf r hr
        simp [hrk] at this
      simp [hk]
    | some r =>
      have hrk : r.key = k := by simpa using List.find?_some hf
      by_cases hk : k = excluded.key
      · simp [hk, hrk.trans hk, doUpdate]
      · have : r.key ≠ excluded.key := fun h1 => hk (hrk.symm.trans h1)
        simp [hk, this]
  · have hmiss : ∀ r ∈ t, r.key ≠ excluded.key := fun r hr hk => h ⟨r, hr, hk⟩
    rw [insertOnConflict_miss hmiss, List.find?_append]
    by_cases hk : k = excluded.key
    · have hnone : t.find? (fun r => decide (r.key = k)) = none := by
        rw [List.find?_eq_none]
        intro r hr
        simpa [hk] using hmiss r hr
      rw [hnone, if_pos hk]
      simp [hk]
    · have : excluded.key ≠ k := fun h1 => hk h1.symm
      simp [hk, this]

theorem mem_insertOnConflict_key {t : Table} {excluded r : Row}
    (hr : r ∈ insertOnConflict t excluded) (hk : r.key = excluded.key) :
    r.f_canonical = excluded.f_canonical ∧ r.f_slot = excluded.f_slot ∧
      r.f_root = excluded.f_root := by
  by_cases h : ∃ r ∈ t, r.key = excluded.key
  · rw [insertOnConflict_hit h] at hr
    obtain ⟨r0, _, rfl⟩ := List.mem_map.mp hr
    rw [upsertRow_key] at hk
    simp only [if_pos hk]
    simp only [Row.key, Prod.mk.injEq] at hk
    simp [doUpdate, hk.1]
  · have hmiss : ∀ r ∈ t, r.key ≠ excluded.key := fun r hr hk => h ⟨r, hr, hk⟩
    rw [insertOnConflict_miss hmiss] at hr
    rcases List.mem_append.mp hr with hr | hr
    · exact absurd hk (hmiss r hr)
    · simp only [List.mem_singleton] at hr
      subst hr
      exact ⟨rfl, rfl, rfl⟩

theorem mem_insertOnConflict_other {t : Table} {excluded r : Row}
    (hr : r ∈ insertOnConflict t excluded) (hk : r.key ≠ excluded.key) : r ∈ t := by
  by_cases h : ∃ r ∈ t, r.key = excluded.key
  · rw [insertOnConflict_hit h] at hr
    obtain ⟨r0, hr0, rfl⟩ := List.mem_map.mp hr
    rw [upsertRow_key] at hk
    simpa only [if_neg hk] using hr0
  · have hmiss : ∀ r ∈ t, r.key ≠ excluded.key := fun r hr hk => h ⟨r, hr, hk⟩
    rw [insertOnConflict_miss hmiss] at hr
    rcases List.mem_append.mp hr with hr | hr
    · exact hr
    · simp only [List.mem_singleton] at hr
      subst hr
      exact absurd rfl hk

theorem countP_split {α : Type} (p q : α → Bool) (l : List α) :
    l.countP p = l.countP (fun a => p a && q a) + l.countP (fun a => p a && !q a) := by
  induction l with
  | nil => rfl
  | cons a l ih =>
    simp only [List.countP_cons, ih]
    cases p a <;> cases q a <;> simp <;> omega

theorem countP_indeterminateQuery (t : Table) (minSlot maxSlot : Nat) (x : Bytes) :
    (indeterminateQuery t minSlot maxSlot).countP (fun y => decide (y = x)) =
      t.countP (fun r => decide (r.f_root = x) && indeterminateWhere minSlot maxSlot r) := by
  unfold indeterminateQuery indeterminateRows
  rw [List.countP_map, (List.perm_insertionSort orderBySlot _).countP_eq, List.countP_filter]
  rfl

/-! ## Handler: lemmas on the run guard -/

theorem TryAcquire_of_free {sem : Weighted} (h : sem.free) :
    sem.TryAcquire 1 = (true, { sem with cur := sem.cur + 1 }) := by
  unfold Weighted.free at h
  unfold Weighted.TryAcquire at h ⊢
  split
  · rfl
  · next hn => rw [if_neg hn] at h; exact absurd h (by simp)

theorem TryAcquire_of_held {sem : Weighted} (h : ¬ sem.free) :
    sem.TryAcquire 1 = (false, sem) := by
  unfold Weighted.free at h
  unfold Weighted.TryAcquire at h ⊢
  split
  · next hp => rw [if_pos hp] at h; exact absurd rfl h
  · rfl

theorem Release_after_acquire (sem : Weighted) :
    ({ sem with cur := sem.cur + 1 } : Weighted).Release 1 = some sem := by
  simp [Weighted.Release]

/-! ## Handler: lemmas on the per-epoch ingestion -/

theorem processedEpochs_append (a b : List Event) :
    processedEpochs (a ++ b) = processedEpochs a ++ processedEpochs b := by
  unfold processedEpochs
  exact List.filterMap_append _ _ _

theorem processedEpochs_committed (done : List BeaconCommittee) :
    processedEpochs (done.flatMap
      (fun c => [.BeginTx true, .SetBeaconCommittee c true, .CommitTx true])) = [] := by
  induction done with
  | nil => rfl
  | cons c rest ih =>
    rw [List.flatMap_cons, processedEpochs_append, ih]
    rfl

theorem writeBeaconCommittees_trace (env : Env) (cs : List APIBeaconCommittee) (w : World) :
    ∃ k tail, k ≤ cs.length ∧
      (writeBeaconCommittees env cs w).2.committees =
        w.committees ++ (cs.take k).map dbBeaconCommittee ∧
      (writeBeaconCommittees env cs w).2.events =
        w.events ++ (((cs.take k).map dbBeaconCommittee).flatMap
          (fun c => [.BeginTx true, .SetBeaconCommittee c true, .CommitTx true]) ++ tail) ∧
      (∀ i c, i < k → cs[i]? = some c →
        env.BeginTx (w.tick + 3 * i) = none ∧
        env.SetBeaconCommittee (w.tick + 3 * i + 1) (dbBeaconCommittee c) = none ∧
        env.CommitTx (w.tick + 3 * i + 2) = none) ∧
      (k = cs.length → (writeBeaconCommittees env cs w).1 = none ∧ tail = []) ∧
      (k < cs.length → ∃ c, cs[k]? = some c ∧
        ((∃ err, env.BeginTx (w.tick + 3 * k) = some err ∧
            (writeBeaconCommittees env cs w).1 = some err ∧ tail = [.BeginTx false]) ∨
         (env.BeginTx (w.tick + 3 * k) = none ∧
            ∃ err, env.SetBeaconCommittee (w.tick + 3 * k + 1) (dbBeaconCommittee c) =
              some err ∧
            (writeBeaconCommittees env cs w).1 =
              some ("failed to set beacon committee: " ++ err) ∧
            tail = [.BeginTx true, .SetBeaconCommittee (dbBeaconCommittee c) false,
              .cancel]) ∨
         (env.BeginTx (w.tick + 3 * k) = none ∧
            env.SetBeaconCommittee (w.tick + 3 * k + 1) (dbBeaconCommittee c) = none ∧
            ∃ err, env.CommitTx (w.tick + 3 * k + 2) = some err ∧
            (writeBeaconCommittees env cs w).1 = some err ∧
            tail = [.BeginTx true, .SetBeaconCommittee (dbBeaconCommittee c) true,
              .CommitTx false, .cancel]))) := by
  induction cs generalizing w with
  | nil =>
    exact ⟨0, [], Nat.le_refl _, by simp [writeBeaconCommittees],
      by simp [writeBeaconCommittees], fun i c h => absurd h (Nat.not_lt_zero i),
      fun _ => ⟨rfl, rfl⟩, fun h => absurd h (by simp)⟩
  | cons c rest ih =>
    have ht1 : (w.call (.BeginTx true)).tick = w.tick + 3 * 0 + 1 := rfl
    have ht2 : ((w.call (.BeginTx true)).call
        (.SetBeaconCommittee (dbBeaconCommittee c) true)).tick = w.tick + 3 * 0 + 2 := rfl
    have ht0 : w.tick = w.tick + 3 * 0 := rfl
    cases hb : env.BeginTx w.tick with
    | some err =>
      have hstep : writeBeaconCommittees env (c :: rest) w =
          (some err, (w.call (.BeginTx false)).logLine "error" none
            "Failed to begin transaction for committee") := by
        simp only [writeBeaconCommittees, hb]
      rw [hstep]
      rw [ht0] at hb
      refine ⟨0, [.BeginTx false], Nat.zero_le _, ?_, ?_, ?_, ?_, ?_⟩
      · simp [World.call, World.logLine]
      · simp [World.call, World.logLine]
      · intro i c1 h
        exact absurd h (Nat.not_lt_zero i)
      · intro h; simp at h
      · intro _
        exact ⟨c, by simp, Or.inl ⟨err, hb, rfl, rfl⟩⟩
    | none =>
      cases hs : env.SetBeaconCommittee (w.call (.BeginTx true)).tick (dbBeaconCommittee c) with
      | some err =>
        have hstep : writeBeaconCommittees env (c :: rest) w =
            (some ("failed to set beacon committee: " ++ err),
              ((w.call (.BeginTx true)).call
                (.SetBeaconCommittee (dbBeaconCommittee c) false)).emit .cancel) := by
          simp only [writeBeaconCommittees, hb, hs]
        rw [hstep]
        rw [ht0] at hb
        rw [ht1] at hs
        refine ⟨0, [.BeginTx true, .SetBeaconCommittee (dbBeaconCommittee c) false, .cancel],
          Nat.zero_le _, ?_, ?_, ?_, ?_, ?_⟩
        · simp [World.call, World.emit]
        · simp [World.call, World.emit]
        · intro i c1 h
          exact absurd h (Nat.not_lt_zero i)
        · intro h; simp at h
        · intro _
          exact ⟨c, by simp, Or.inr (Or.inl ⟨hb, err, hs, rfl, rfl⟩)⟩
      | none =>
        cases hc : env.CommitTx ((w.call (.BeginTx true)).call
            (.SetBeaconCommittee (dbBeaconCommittee c) true)).tick with
        | some err =>
          have hstep : writeBeaconCommittees env (c :: rest) w =
              (some err, ((((w.call (.BeginTx true)).call
                (.SetBeaconCommittee (dbBeaconCommittee c) true)).call
                  (.CommitTx false)).logLine "error" none
                    "Failed to commit transaction").emit .cancel) := by
            simp only [writeBeaconCommittees, hb, hs, hc]
          rw [hstep]
          rw [ht0] at hb
          rw [ht1] at hs
          rw [ht2] at hc
          refine ⟨0, [.BeginTx true, .SetBeaconCommittee (dbBeaconCommittee c) true,
            .CommitTx false, .cancel], Nat.zero_le _, ?_, ?_, ?_, ?_, ?_⟩
          · simp [World.call, World.emit, World.logLine]
          · simp [World.call, World.emit, World.logLine]
          · intro i c1 h
            exact absurd h (Nat.not_lt_zero i)
          · intro h; simp at h
          · intro _
            exact ⟨c, by simp, Or.inr (Or.inr ⟨hb, hs, err, hc, rfl, rfl⟩)⟩
        | none =>
          obtain ⟨w3, hw3⟩ : ∃ w3 : World, w3 =
              { ((w.call (.BeginTx true)).call
                  (.SetBeaconCommittee (dbBeaconCommittee c) true)).call (.CommitTx true) with
                committees := ((w.call (.BeginTx true)).call
                  (.SetBeaconCommittee (dbBeaconCommittee c) true)).committees ++
                    [dbBeaconCommittee c] } := ⟨_, rfl⟩
          have hstep : writeBeaconCommittees env (c :: rest) w =
              writeBeaconCommittees env rest w3 := by
            rw [hw3]
            simp only [writeBeaconCommittees, hb, hs, hc]
          have h3t : w3.tick = w.tick + 3 := by rw [hw3]; rfl
          have h3c : w3.committees = w.committees ++ [dbBeaconCommittee c] := by
            rw [hw3]; rfl
          have h3e : w3.events = w.events ++ [.BeginTx true,
              .SetBeaconCommittee (dbBeaconCommittee c) true, .CommitTx true] := by
            rw [hw3]
            simp [World.call]
          obtain ⟨k, tail, hk, hcom, hev, hok, hall, hfail⟩ := ih w3
          rw [← hstep, h3c] at hcom
          rw [← hstep, h3e] at hev
          rw [← hstep] at hall hfail
          rw [h3t] at hok hfail
          have hidx : ∀ j, w.tick + 3 * (j + 1) = w.tick + 3 + 3 * j := fun j => by omega
          refine ⟨k + 1, tail, by simpa using hk, ?_, ?_, ?_, ?_, ?_⟩
          · rw [hcom]
            simp
          · rw [hev]
            simp
          · intro i c1 hi hc1
            cases i with
            | zero =>
              simp only [List.getElem?_cons_zero, Option.some.injEq] at hc1
              subst hc1
              exact ⟨hb, hs, hc⟩
            | succ j =>
              rw [hidx]
              exact hok j c1 (by omega) (by simpa using hc1)
          · intro h
            exact hall (by simpa using h)
          · intro h
            obtain ⟨c1, hc1, ht⟩ := hfail (by simpa using h)
            rw [hidx]
            exact ⟨c1, by simpa using hc1, ht⟩

theorem OnBeaconChainHeadUpdated_slot (d : Deps) (s : Service) (slot1 slot2 : Nat)
    (epochTransition : Bool) :
    (OnBeaconChainHeadUpdated d s slot1 epochTransition).map Service.effects =
      (OnBeaconChainHeadUpdated d s slot2 epochTransition).map Service.effects := by
  unfold OnBeaconChainHeadUpdated
  cases epochTransition with
  | false => rfl
  | true =>
    simp only [Bool.not_true, Bool.false_eq_true, if_false]
    cases (s.activitySem.TryAcquire 1) with
    | mk acquired sem =>
      cases acquired with
      | false => rfl
      | true =>
        simp only [Bool.not_true, Bool.false_eq_true, if_false]
        cases d.getMetadata s.world with
        | mk res w =>
          cases res with
          | error err =>
            cases sem.Release 1 <;> rfl
          | ok md => rfl

theorem OnBeaconChainHeadUpdated_run {d : Deps} {s : Service} {md : Metadata} {w : World}
    (slot : Nat) (hfree : s.activitySem.free) (hmd : d.getMetadata s.world = (.ok md, w)) :
    OnBeaconChainHeadUpdated d s slot true =
      some { activitySem := s.activitySem, world := d.catchup md w } := by
  simp [OnBeaconChainHeadUpdated, TryAcquire_of_free hfree, hmd, Release_after_acquire]

/-! ## The handler: gate and guard -/

/-- C1: when `epochTransition` is false or the run guard is held at entry,
`OnBeaconChainHeadUpdated` returns with the guard, the events (metadata reads,
committee fetches, store calls), the committed committees, the metadata and the
count of external calls exactly as found; with `epochTransition` false nothing
at all changes; and the outcome is the same whatever `getMetadata`, `catchup`
and the chain clock are, so none of them is called. Metadata is thus read and
catch-up run only if `epochTransition` is true and the guard was free. -/
theorem OnBeaconChainHeadUpdated_gate (d : Deps) (s : Service) (slot : Nat)
    (epochTransition : Bool)
    (hgate : epochTransition = false ∨ ¬ s.activitySem.free) :
    ∃ s1, OnBeaconChainHeadUpdated d s slot epochTransition = some s1 ∧
      s1.activitySem = s.activitySem ∧
      s1.world.events = s.world.events ∧
      s1.world.committees = s.world.committees ∧
      s1.world.metadata = s.world.metadata ∧
      s1.world.tick = s.world.tick ∧
      (epochTransition = false → s1 = s) ∧
      (∀ d1 : Deps, OnBeaconChainHeadUpdated d1 s slot epochTransition = some s1) := by
  cases epochTransition with
  | false =>
    exact ⟨s, rfl, rfl, rfl, rfl, rfl, rfl, fun _ => rfl, fun _ => rfl⟩
  | true =>
    have hheld : ¬ s.activitySem.free := by
      rcases hgate with h | h
      · exact absurd h (by simp)
      · exact h
    have hrun : ∀ d0 : Deps, OnBeaconChainHeadUpdated d0 s slot true =
        some { s with world := s.world.logLine "debug" none "Another handler running" } := by
      intro d0
      simp [OnBeaconChainHeadUpdated, TryAcquire_of_held hheld]
    exact ⟨_, hrun d, rfl, rfl, rfl, rfl, rfl, fun h => absurd h (by simp), hrun⟩

/-- Witness for `OnBeaconChainHeadUpdated_gate`: the guard is held. -/
theorem OnBeaconChainHeadUpdated_gate_witness :
    ∃ s1, OnBeaconChainHeadUpdated (sampleDeps false)
        { activitySem := guard 1, world := freshWorld 10 } 416 true = some s1 ∧
      s1.activitySem = guard 1 ∧
      s1.world.events = (freshWorld 10).events ∧
      s1.world.committees = (freshWorld 10).committees ∧
      s1.world.metadata = (freshWorld 10).metadata ∧
      s1.world.tick = (freshWorld 10).tick ∧
      (true = false → s1 = { activitySem := guard 1, world := freshWorld 10 }) ∧
      (∀ d1 : Deps, OnBeaconChainHeadUpdated d1
        { activitySem := guard 1, world := freshWorld 10 } 416 true = some s1) :=
  OnBeaconChainHeadUpdated_gate (sampleDeps false)
    { activitySem := guard 1, world := freshWorld 10 } 416 true (Or.inr (by decide))

/-- C2: a call of `OnBeaconChainHeadUpdated` that starts with the run guard free
returns, and returns with the guard as it was, hence free, whatever
`epochTransition`, `getMetadata` and `catchup` do; and when the metadata read
fails the world is the one the read left plus the error line, whatever `catchup`
is: catch-up is not run. -/
theorem guard_released (d : Deps) (s : Service) (slot : Nat) (epochTransition : Bool)
    (hfree : s.activitySem.free) :
    ∃ s1, OnBeaconChainHeadUpdated d s slot epochTransition = some s1 ∧
      s1.activitySem = s.activitySem ∧ s1.activitySem.free ∧
      (epochTransition = true → ∀ err w, d.getMetadata s.world = (.error err, w) →
        s1.world = w.logLine "error" (some (d.chainTime.SlotToEpoch slot))
          "Failed to obtain metadata" ∧
        ∀ c, OnBeaconChainHeadUpdated { d with catchup := c } s slot epochTransition =
          some s1) := by
  cases epochTransition with
  | false => exact ⟨s, rfl, rfl, hfree, fun h => absurd h (by simp)⟩
  | true =>
    cases hmd : d.getMetadata s.world with
    | mk res w =>
      cases res with
      | error err =>
        have hrun : ∀ c, OnBeaconChainHeadUpdated { d with catchup := c } s slot true =
            some { activitySem := s.activitySem
                   world := w.logLine "error" (some (d.chainTime.SlotToEpoch slot))
                     "Failed to obtain metadata" } := by
          intro c
          simp [OnBeaconChainHeadUpdated, TryAcquire_of_free hfree, hmd,
            Release_after_acquire]
        refine ⟨_, hrun d.catchup, rfl, hfree, ?_⟩
        intro _ err1 w1 h1
        cases h1
        exact ⟨rfl, hrun⟩
      | ok md =>
        refine ⟨{ activitySem := s.activitySem, world := d.catchup md w }, ?_, rfl, hfree, ?_⟩
        · simp [OnBeaconChainHeadUpdated, TryAcquire_of_free hfree, hmd,
            Release_after_acquire]
        · intro _ err1 w1 h1
          cases h1

/-- Witness for `guard_released`: the metadata read fails. -/
theorem guard_released_witness :
    ∃ s1, OnBeaconChainHeadUpdated (sampleDeps true)
        { activitySem := guard 0, world := freshWorld 10 } 416 true = some s1 ∧
      s1.activitySem = guard 0 ∧ s1.activitySem.free ∧
      (true = true → ∀ err w,
        (sampleDeps true).getMetadata (freshWorld 10) = (.error err, w) →
        s1.world = w.logLine "error" (some ((sampleDeps true).chainTime.SlotToEpoch 416))
          "Failed to obtain metadata" ∧
        ∀ c, OnBeaconChainHeadUpdated { sampleDeps true with catchup := c }
          { activitySem := guard 0, world := freshWorld 10 } 416 true = some s1) :=
  guard_released (sampleDeps true) { activitySem := guard 0, world := freshWorld 10 } 416 true
    (by decide)

/-! ## The handler: catch-up and per-epoch ingestion -/

/-- C3, counterexample: with Progress Metadata at epoch 10 and the guard free,
no `getMetadata` and `catchup` behind the handler make a head update for slot 416
(epoch 13) process epochs 11, 12, 13 and a head update for slot 448 (epoch 14)
process epochs 11, 12, 13, 14, as the claim would have it: `catchup` is handed
the metadata only, so both calls process the same epochs. -/
theorem catchup_range_counterexample :
    (guard 0).free ∧ clock32.SlotToEpoch 416 = 13 ∧ clock32.SlotToEpoch 448 = 14 ∧
    (freshWorld 10).metadata.last_processed_epoch = 10 ∧
    ¬ ∃ (getMetadata : World → Except Error Metadata × World)
        (catchup : Metadata → World → World),
      (OnBeaconChainHeadUpdated
        { chainTime := clock32, getMetadata := getMetadata, catchup := catchup }
        { activitySem := guard 0, world := freshWorld 10 } 416 true).map
          (fun s => processedEpochs s.world.events) = some [11, 12, 13] ∧
      (OnBeaconChainHeadUpdated
        { chainTime := clock32, getMetadata := getMetadata, catchup := catchup }
        { activitySem := guard 0, world := freshWorld 10 } 448 true).map
          (fun s => processedEpochs s.world.events) = some [11, 12, 13, 14] := by
  refine ⟨by decide, by decide, by decide, rfl, ?_⟩
  rintro ⟨g, c, h1, h2⟩
  have hslot := OnBeaconChainHeadUpdated_slot
    { chainTime := clock32, getMetadata := g, catchup := c }
    { activitySem := guard 0, world := freshWorld 10 } 416 448 true
  cases hA : OnBeaconChainHeadUpdated
      { chainTime := clock32, getMetadata := g, catchup := c }
      { activitySem := guard 0, world := freshWorld 10 } 416 true with
  | none => rw [hA] at h1; cases h1
  | some sA =>
    cases hB : OnBeaconChainHeadUpdated
        { chainTime := clock32, getMetadata := g, catchup := c }
        { activitySem := guard 0, world := freshWorld 10 } 448 true with
    | none => rw [hB] at h2; cases h2
    | some sB =>
      rw [hA] at h1 hslot
      rw [hB] at h2 hslot
      simp only [Option.map, Option.some.injEq, Service.effects, Prod.mk.injEq] at h1 h2 hslot
      rw [hslot.2.2.2.2, h2] at h1
      exact absurd h1 (by decide)

/-- C3, amended: on an epoch transition with the guard free and Progress
Metadata read successfully, the coordinator returns with the guard as found and
the world that `catchup`, run once on the metadata read and on the world the read
left, produced: nothing derived from the triggering slot reaches `catchup`, so the
result is the same for every triggering slot; and whatever the metadata read
returns, the effects of the call are the same for any two triggering slots. -/
theorem catchup_range (d : Deps) (s : Service) (slot : Nat) (md : Metadata) (w : World)
    (hfree : s.activitySem.free) (hmd : d.getMetadata s.world = (.ok md, w)) :
    OnBeaconChainHeadUpdated d s slot true =
        some { activitySem := s.activitySem, world := d.catchup md w } ∧
    (∀ slot2, OnBeaconChainHeadUpdated d s slot2 true =
        OnBeaconChainHeadUpdated d s slot true) ∧
    ∀ (d1 : Deps) (slot1 slot2 : Nat),
      (OnBeaconChainHeadUpdated d1 s slot1 true).map Service.effects =
        (OnBeaconChainHeadUpdated d1 s slot2 true).map Service.effects := by
  refine ⟨OnBeaconChainHeadUpdated_run slot hfree hmd, ?_, ?_⟩
  · intro slot2
    rw [OnBeaconChainHeadUpdated_run slot hfree hmd,
      OnBeaconChainHeadUpdated_run slot2 hfree hmd]
  · intro d1 slot1 slot2
    exact OnBeaconChainHeadUpdated_slot d1 s slot1 slot2 true

/-- Witness for `catchup_range`: last processed epoch 10, head update at slot 416. -/
theorem catchup_range_witness :
    OnBeaconChainHeadUpdated (sampleDeps false)
        { activitySem := guard 0, world := freshWorld 10 } 416 true =
      some { activitySem := guard 0
             world := (sampleDeps false).catchup { last_processed_epoch := 10 }
               ((freshWorld 10).call (.getMetadata true)) } ∧
    (∀ slot2, OnBeaconChainHeadUpdated (sampleDeps false)
        { activitySem := guard 0, world := freshWorld 10 } slot2 true =
      OnBeaconChainHeadUpdated (sampleDeps false)
        { activitySem := guard 0, world := freshWorld 10 } 416 true) ∧
    ∀ (d1 : Deps) (slot1 slot2 : Nat),
      (OnBeaconChainHeadUpdated d1 { activitySem := guard 0, world := freshWorld 10 }
        slot1 true).map Service.effects =
      (OnBeaconChainHeadUpdated d1 { activitySem := guard 0, world := freshWorld 10 }
        slot2 true).map Service.effects :=
  catchup_range (sampleDeps false) { activitySem := guard 0, world := freshWorld 10 } 416
    { last_processed_epoch := 10 } ((freshWorld 10).call (.getMetadata true)) (by decide) rfl

/-- C4: `updateBeaconCommitteesForEpoch`, for every epoch and every outcome of the
external calls, the outcome of the call made after `n` others being the
environment's at `n`. (a) If the fetch fails it returns the wrapped error having
made no call but the fetch and committed nothing. (b) If the fetch returns `cs`,
there is a `k` such that begin, set and commit succeeded for each of the
committees before position `k`, the committees committed are those `k`, in
fetched order and with the slot, index and validators fetched, each through its
own `BeginTx`, `SetBeaconCommittee`, `CommitTx`; when `k` is short of the length,
the begin, set or commit of committee `k` failed, its error is returned, that
committee is not committed and nothing is attempted after it. (c) It returns nil
exactly when every fetched committee was committed, and the epoch-processed signal
is emitted once, for that epoch, in that case and not at all otherwise. (d)
Whenever the first failure of a begin, set or commit is at position `i`, an error
is returned and the committees committed are the first `i`. -/
theorem updateBeaconCommitteesForEpoch_partial (env : Env) (chainTime : ChainTime)
    (epoch : Nat) (w : World) :
    ∃ res w1 evs, updateBeaconCommitteesForEpoch env chainTime epoch w = (res, w1) ∧
      w1.events = w.events ++ evs ∧
      (∀ err, env.BeaconCommittees w.tick (toString (chainTime.FirstSlotOfEpoch epoch)) =
          .error err →
        res = some ("failed to fetch beacon committees: " ++ err) ∧
          w1.committees = w.committees ∧
          evs = [.BeaconCommittees (toString (chainTime.FirstSlotOfEpoch epoch)) false]) ∧
      (∀ cs, env.BeaconCommittees w.tick (toString (chainTime.FirstSlotOfEpoch epoch)) =
          .ok cs →
        ∃ k done tail, k ≤ cs.length ∧
          done = (cs.take k).map
            (fun c => ({ Slot := c.Slot, Index := c.Index, Committee := c.Validators } :
              BeaconCommittee)) ∧
          w1.committees = w.committees ++ done ∧
          evs = .BeaconCommittees (toString (chainTime.FirstSlotOfEpoch epoch)) true ::
            (done.flatMap
              (fun c => [.BeginTx true, .SetBeaconCommittee c true, .CommitTx true]) ++
                tail) ∧
          (∀ i c, i < k → cs[i]? = some c →
            env.BeginTx (w.tick + 1 + 3 * i) = none ∧
            env.SetBeaconCommittee (w.tick + 1 + 3 * i + 1)
              { Slot := c.Slot, Index := c.Index, Committee := c.Validators } = none ∧
            env.CommitTx (w.tick + 1 + 3 * i + 2) = none) ∧
          (k = cs.length → res = none ∧ tail = [.monitorEpochProcessed epoch]) ∧
          (k < cs.length → ∃ c, cs[k]? = some c ∧
            ((∃ err, env.BeginTx (w.tick + 1 + 3 * k) = some err ∧
                res = some err ∧ tail = [.BeginTx false]) ∨
             (env.BeginTx (w.tick + 1 + 3 * k) = none ∧
                ∃ err, env.SetBeaconCommittee (w.tick + 1 + 3 * k + 1)
                  { Slot := c.Slot, Index := c.Index, Committee := c.Validators } =
                    some err ∧
                res = some ("failed to set beacon committee: " ++ err) ∧
                tail = [.BeginTx true,
                  .SetBeaconCommittee
                    { Slot := c.Slot, Index := c.Index, Committee := c.Validators } false,
                  .cancel]) ∨
             (env.BeginTx (w.tick + 1 + 3 * k) = none ∧
                env.SetBeaconCommittee (w.tick + 1 + 3 * k + 1)
                  { Slot := c.Slot, Index := c.Index, Committee := c.Validators } = none ∧
                ∃ err, env.CommitTx (w.tick + 1 + 3 * k + 2) = some err ∧
                res = some err ∧
                tail = [.BeginTx true,
                  .SetBeaconCommittee
                    { Slot := c.Slot, Index := c.Index, Committee := c.Validators } true,
                  .CommitTx false, .cancel])))) ∧
      (res = none ↔
        ∃ cs, env.BeaconCommittees w.tick (toString (chainTime.FirstSlotOfEpoch epoch)) =
          .ok cs ∧ w1.committees = w.committees ++ cs.map
            (fun c => ({ Slot := c.Slot, Index := c.Index, Committee := c.Validators } :
              BeaconCommittee))) ∧
      processedEpochs evs = (if res = none then [epoch] else []) ∧
      (∀ cs i ci, env.BeaconCommittees w.tick
          (toString (chainTime.FirstSlotOfEpoch epoch)) = .ok cs →
        cs[i]? = some ci →
        (∀ j c, j < i → cs[j]? = some c →
          env.BeginTx (w.tick + 1 + 3 * j) = none ∧
          env.SetBeaconCommittee (w.tick + 1 + 3 * j + 1)
            { Slot := c.Slot, Index := c.Index, Committee := c.Validators } = none ∧
          env.CommitTx (w.tick + 1 + 3 * j + 2) = none) →
        ¬ (env.BeginTx (w.tick + 1 + 3 * i) = none ∧
          env.SetBeaconCommittee (w.tick + 1 + 3 * i + 1)
            { Slot := ci.Slot, Index := ci.Index, Committee := ci.Validators } = none ∧
          env.CommitTx (w.tick + 1 + 3 * i + 2) = none) →
        res ≠ none ∧ w1.committees = w.committees ++ (cs.take i).map
          (fun c => ({ Slot := c.Slot, Index := c.Index, Committee := c.Validators } :
            BeaconCommittee))) := by
  have htick : (w.logLine "trace" (some epoch) "Updating beacon committees").tick = w.tick :=
    rfl
  have hconv : dbBeaconCommittee = (fun c =>
      ({ Slot := c.Slot, Index := c.Index, Committee := c.Validators } : BeaconCommittee)) :=
    rfl
  cases hf : env.BeaconCommittees w.tick (toString (chainTime.FirstSlotOfEpoch epoch)) with
  | error err =>
    refine ⟨some ("failed to fetch beacon committees: " ++ err),
      (w.logLine "trace" (some epoch) "Updating beacon committees").call
        (.BeaconCommittees (toString (chainTime.FirstSlotOfEpoch epoch)) false),
      [.BeaconCommittees (toString (chainTime.FirstSlotOfEpoch epoch)) false],
      ?_, rfl, ?_, ?_, ?_, rfl, ?_⟩
    · simp only [updateBeaconCommitteesForEpoch, htick, hf]
    · intro err1 h
      cases h
      exact ⟨rfl, rfl, rfl⟩
    · intro cs h
      cases h
    · constructor
      · intro h
        cases h
      · rintro ⟨cs, h, _⟩
        cases h
    · intro cs i ci h
      cases h
  | ok cs =>
    obtain ⟨k, tail, hk, hcom, hev, hok, hall, hfail⟩ := writeBeaconCommittees_trace env cs
      ((w.logLine "trace" (some epoch) "Updating beacon committees").call
        (.BeaconCommittees (toString (chainTime.FirstSlotOfEpoch epoch)) true))
    have ht1 : ((w.logLine "trace" (some epoch) "Updating beacon committees").call
        (.BeaconCommittees (toString (chainTime.FirstSlotOfEpoch epoch)) true)).tick =
        w.tick + 1 := rfl
    rw [ht1] at hok hfail
    rw [hconv] at hcom hev hok hfail
    simp only at hok hfail
    have hlen : ∀ (w1 : World) (i j : Nat), i ≤ cs.length → j ≤ cs.length →
        w1.committees = w.committees ++ (cs.take i).map (fun c =>
          ({ Slot := c.Slot, Index := c.Index, Committee := c.Validators } :
            BeaconCommittee)) →
        w1.committees = w.committees ++ (cs.take j).map (fun c =>
          ({ Slot := c.Slot, Index := c.Index, Committee := c.Validators } :
            BeaconCommittee)) → i = j := by
      intro w1 i j hi hj h1 h2
      have := congrArg List.length (h1.symm.trans h2)
      simp only [List.length_append, List.length_map, List.length_take] at this
      omega
    -- the position of the first failure is `k`
    have hfirst : ∀ i ci, cs[i]? = some ci →
        (∀ j c, j < i → cs[j]? = some c →
          env.BeginTx (w.tick + 1 + 3 * j) = none ∧
          env.SetBeaconCommittee (w.tick + 1 + 3 * j + 1)
            { Slot := c.Slot, Index := c.Index, Committee := c.Validators } = none ∧
          env.CommitTx (w.tick + 1 + 3 * j + 2) = none) →
        ¬ (env.BeginTx (w.tick + 1 + 3 * i) = none ∧
          env.SetBeaconCommittee (w.tick + 1 + 3 * i + 1)
            { Slot := ci.Slot, Index := ci.Index, Committee := ci.Validators } = none ∧
          env.CommitTx (w.tick + 1 + 3 * i + 2) = none) → k = i := by
      intro i ci hci hbefore hfails
      have hilt : i < cs.length := by
        rcases Nat.lt_or_ge i cs.length with h | h
        · exact h
        · rw [List.getElem?_eq_none h] at hci
          cases hci
      rcases Nat.lt_trichotomy k i with hlt | heq | hgt
      · obtain ⟨c, hc, hdisj⟩ := hfail (Nat.lt_trans hlt hilt)
        obtain ⟨hb, hs, hcm⟩ := hbefore k c hlt hc
        rcases hdisj with ⟨err, h, _⟩ | ⟨_, err, h, _⟩ | ⟨_, _, err, h, _⟩
        · rw [hb] at h; cases h
        · rw [hs] at h; cases h
        · rw [hcm] at h; cases h
      · exact heq
      · exact absurd (hok i ci hgt hci) hfails
    cases hr : writeBeaconCommittees env cs
      ((w.logLine "trace" (some epoch) "Updating beacon committees").call
        (.BeaconCommittees (toString (chainTime.FirstSlotOfEpoch epoch)) true)) with
    | mk res0 w1 =>
      rw [hr] at hcom hev hall hfail
      simp only at hcom hev hall hfail
      have hcom2 : w1.committees = w.committees ++ (cs.take k).map (fun c =>
          ({ Slot := c.Slot, Index := c.Index, Committee := c.Validators } :
            BeaconCommittee)) := hcom
      have hev2 : w1.events = w.events ++
          (.BeaconCommittees (toString (chainTime.FirstSlotOfEpoch epoch)) true ::
            (((cs.take k).map (fun c =>
              ({ Slot := c.Slot, Index := c.Index, Committee := c.Validators } :
                BeaconCommittee))).flatMap
              (fun c => [.BeginTx true, .SetBeaconCommittee c true, .CommitTx true]) ++
                tail)) := by
        rw [hev]
        simp [World.call, World.logLine]
      cases res0 with
      | none =>
        have hklen : k = cs.length := by
          rcases Nat.lt_or_ge k cs.length with hlt | hge
          · obtain ⟨c, _, hdisj⟩ := hfail hlt
            rcases hdisj with ⟨err, _, h, _⟩ | ⟨_, err, _, h, _⟩ | ⟨_, _, err, _, h, _⟩ <;>
              cases h
          · exact Nat.le_antisymm hk hge
        have htail : tail = [] := (hall hklen).2
        refine ⟨none, w1.emit (.monitorEpochProcessed epoch),
          .BeaconCommittees (toString (chainTime.FirstSlotOfEpoch epoch)) true ::
            (((cs.take k).map (fun c =>
              ({ Slot := c.Slot, Index := c.Index, Committee := c.Validators } :
                BeaconCommittee))).flatMap
              (fun c => [.BeginTx true, .SetBeaconCommittee c true, .CommitTx true]) ++
                [.monitorEpochProcessed epoch]),
          ?_, ?_, ?_, ?_, ?_, ?_, ?_⟩
        · simp only [updateBeaconCommitteesForEpoch, htick, hf, hr]
        · show w1.events ++ [.monitorEpochProcessed epoch] = _
          rw [hev2, htail]
          simp
        · intro err h
          cases h
        · intro cs1 h
          cases h
          exact ⟨k, _, [.monitorEpochProcessed epoch], hk, rfl, hcom2, rfl, hok,
            fun _ => ⟨rfl, rfl⟩, fun hlt => absurd hklen (Nat.ne_of_lt hlt)⟩
        · constructor
          · intro _
            refine ⟨cs, rfl, ?_⟩
            show w1.committees = _
            rw [hcom2, hklen, List.take_length]
          · intro _
            rfl
        · rw [if_pos rfl]
          show processedEpochs ([_] ++ (List.flatMap _ _ ++ [_])) = _
          rw [processedEpochs_append, processedEpochs_append, processedEpochs_committed]
          rfl
        · intro cs1 i ci h hci hbefore hfails
          cases h
          have hki := hfirst i ci hci hbefore hfails
          have hilt : i < cs.length := by
            rcases Nat.lt_or_ge i cs.length with h | h
            · exact h
            · rw [List.getElem?_eq_none h] at hci
              cases hci
          omega
      | some err =>
        have hklt : k < cs.length := by
          rcases Nat.lt_or_ge k cs.length with hlt | hge
          · exact hlt
          · exact absurd (hall (Nat.le_antisymm hk hge)).1 (by simp)
        refine ⟨some err, w1,
          .BeaconCommittees (toString (chainTime.FirstSlotOfEpoch epoch)) true ::
            (((cs.take k).map (fun c =>
              ({ Slot := c.Slot, Index := c.Index, Committee := c.Validators } :
                BeaconCommittee))).flatMap
              (fun c => [.BeginTx true, .SetBeaconCommittee c true, .CommitTx true]) ++
                tail),
          ?_, hev2, ?_, ?_, ?_, ?_, ?_⟩
        · simp only [updateBeaconCommitteesForEpoch, htick, hf, hr]
        · intro err1 h
          cases h
        · intro cs1 h
          cases h
          exact ⟨k, _, tail, hk, rfl, hcom2, rfl, hok,
            fun h => absurd h (Nat.ne_of_lt hklt), fun _ => hfail hklt⟩
        · constructor
          · intro h
            cases h
          · rintro ⟨cs1, h, hc1⟩
            cases h
            have hc2 : w1.committees = w.committees ++ (cs.take cs.length).map (fun c =>
                ({ Slot := c.Slot, Index := c.Index, Committee := c.Validators } :
                  BeaconCommittee)) := by
              rw [List.take_length]
              exact hc1
            exact absurd (hlen w1 k cs.length hk (Nat.le_refl _) hcom2 hc2)
              (Nat.ne_of_lt hklt)
        · rw [if_neg (by simp)]
          obtain ⟨c, _, hdisj⟩ := hfail hklt
          have htail : processedEpochs tail = [] := by
            rcases hdisj with ⟨_, _, _, h⟩ | ⟨_, _, _, _, h⟩ | ⟨_, _, _, _, _, h⟩ <;>
              rw [h] <;> rfl
          show processedEpochs ([_] ++ (List.flatMap _ _ ++ tail)) = _
          rw [processedEpochs_append, processedEpochs_append, processedEpochs_committed,
            htail]
          rfl
        · intro cs1 i ci h hci hbefore hfails
          cases h
          have hki := hfirst i ci hci hbefore hfails
          subst hki
          exact ⟨by simp, hcom2⟩

/-! ## The block store -/

/-- C5: when the table already holds a row with key `(b.Slot, b.Root)`, a
`SetBlock(b)` in a transaction succeeds and leaves the list of keys as it was (no
row added or removed), every row with another key unchanged, and the row with
that key with proposer index, graffiti, randao reveal, state root, canonical
marker and the three eth1 fields of `b`, and with the slot, root, body root and
parent root it had, whatever body root and parent root `b` carries. -/
theorem SetBlock_conflict (ctx : Ctx) (t : Table) (b : Block)
    (htx : ctx.tx = true) (hexec : ctx.execFails = false)
    (hrow : ∃ r ∈ t, r.key = (b.Slot, b.Root)) :
    ∃ t1, SetBlock ctx t b = .ok t1 ∧
      t1.map Row.key = t.map Row.key ∧
      ∀ (i : Nat) (r : Row), t[i]? = some r →
        ∃ r1, t1[i]? = some r1 ∧
          (r.key ≠ (b.Slot, b.Root) → r1 = r) ∧
          (r.key = (b.Slot, b.Root) →
            r1.f_proposer_index = b.ProposerIndex ∧
            r1.f_graffiti = b.Graffiti ∧
            r1.f_randao_reveal = b.RANDAOReveal ∧
            r1.f_state_root = b.StateRoot ∧
            r1.f_canonical = b.Canonical ∧
            r1.f_eth1_block_hash = b.ETH1BlockHash ∧
            r1.f_eth1_deposit_count = b.ETH1DepositCount ∧
            r1.f_eth1_deposit_root = b.ETH1DepositRoot ∧
            r1.f_slot = r.f_slot ∧
            r1.f_root = r.f_root ∧
            r1.f_body_root = r.f_body_root ∧
            r1.f_parent_root = r.f_parent_root) := by
  refine ⟨_, SetBlock_ok htx hexec t b, ?_, ?_⟩
  · rw [insertOnConflict_hit (by simpa [values_key] using hrow), List.map_map]
    apply List.map_congr_left
    intro r _
    exact upsertRow_key r _
  · intro i r hi
    rw [insertOnConflict_hit (by simpa [values_key] using hrow)]
    refine ⟨_, by rw [List.getElem?_map, hi]; rfl, ?_, ?_⟩
    · intro hne
      simp only [values_key, if_neg hne]
    · intro heq
      simp only [values_key, if_pos heq]
      simp only [Row.key, Prod.mk.injEq] at heq
      simp [doUpdate, Block.values, canonicalParam_toColumn, heq.2]

/-- Witness for `SetBlock_conflict`: the stored block of slot 7 is set again with
another proposer, body root, parent root and marker. -/
theorem SetBlock_conflict_witness :
    ∃ t1, SetBlock inTx table7 changedBlock = .ok t1 ∧
      t1.map Row.key = table7.map Row.key ∧
      ∀ (i : Nat) (r : Row), table7[i]? = some r →
        ∃ r1, t1[i]? = some r1 ∧
          (r.key ≠ (changedBlock.Slot, changedBlock.Root) → r1 = r) ∧
          (r.key = (changedBlock.Slot, changedBlock.Root) →
            r1.f_proposer_index = changedBlock.ProposerIndex ∧
            r1.f_graffiti = changedBlock.Graffiti ∧
            r1.f_randao_reveal = changedBlock.RANDAOReveal ∧
            r1.f_state_root = changedBlock.StateRoot ∧
            r1.f_canonical = changedBlock.Canonical ∧
            r1.f_eth1_block_hash = changedBlock.ETH1BlockHash ∧
            r1.f_eth1_deposit_count = changedBlock.ETH1DepositCount ∧
            r1.f_eth1_deposit_root = changedBlock.ETH1DepositRoot ∧
            r1.f_slot = r.f_slot ∧
            r1.f_root = r.f_root ∧
            r1.f_body_root = r.f_body_root ∧
            r1.f_parent_root = r.f_parent_root) :=
  SetBlock_conflict inTx table7 changedBlock rfl rfl
    ⟨(mkBlock 7 1 none).values (canonicalParam (mkBlock 7 1 none)),
      List.mem_singleton.mpr rfl, rfl⟩

/-- C6: a `SetBlock(b)` in a transaction succeeds, a second `SetBlock(b)` on the
table it produced succeeds and produces that same table, and when the keys of
the table were unique it holds exactly one row with key `(b.Slot, b.Root)`. -/
theorem SetBlock_idempotent (ctx : Ctx) (t : Table) (b : Block)
    (htx : ctx.tx = true) (hexec : ctx.execFails = false) :
    ∃ t1, SetBlock ctx t b = .ok t1 ∧ SetBlock ctx t1 b = .ok t1 ∧
      (t.WF → t1.countP (fun r => decide (r.key = (b.Slot, b.Root))) = 1) := by
  refine ⟨_, SetBlock_ok htx hexec t b, ?_, ?_⟩
  · rw [SetBlock_ok htx hexec, insertOnConflict_idem]
  · intro hwf
    exact insertOnConflict_count t (b.values (canonicalParam b)) hwf

/-- Witness for `SetBlock_idempotent`. -/
theorem SetBlock_idempotent_witness :
    ∃ t1, SetBlock inTx table7 changedBlock = .ok t1 ∧ SetBlock inTx t1 changedBlock = .ok t1 ∧
      (table7.WF →
        t1.countP (fun r => decide (r.key = (changedBlock.Slot, changedBlock.Root))) = 1) :=
  SetBlock_idempotent inTx table7 changedBlock rfl rfl

/-- C7: `EmptySlots(minSlot, maxSlot)`, with a transaction at hand or begun,
returns a list without repetition whose members are exactly the slots `s` with
`minSlot <= s <= maxSlot` at which the table holds no row, whatever its root or
marker; and with blocks stored only at 100, 102 and 104 the result for
`(100, 105)` is 101, 103, 105. -/
theorem EmptySlots_exact (ctx : Ctx) (t : Table) (minSlot maxSlot : Nat)
    (hctx : ctx.tx = true ∨ ctx.beginTxFails = false) (hexec : ctx.execFails = false) :
    (∃ l, EmptySlots ctx t minSlot maxSlot = .ok l ∧ l.Nodup ∧
      ∀ s, s ∈ l ↔ (minSlot ≤ s ∧ s ≤ maxSlot) ∧ ∀ r ∈ t, r.f_slot ≠ s) ∧
    (SetBlocks inTx [] [mkBlock 100 1 none, mkBlock 102 2 none, mkBlock 104 3 none]).bind
      (fun t1 => EmptySlots ctx t1 100 105) = .ok [101, 103, 105] := by
  have hq : ∀ t1 a b, EmptySlots ctx t1 a b = .ok (emptySlotsQuery t1 a b) := by
    intro t1 a b
    simp [EmptySlots, query_ok hctx, hexec]
  refine ⟨⟨_, hq t minSlot maxSlot, ?_, ?_⟩, ?_⟩
  · rw [emptySlotsQuery_eq]
    exact (List.nodup_range' _ _).filter _
  · intro s
    rw [emptySlotsQuery_eq, List.mem_filter, mem_generate_series]
    simp
  · have h1 : SetBlocks inTx [] [mkBlock 100 1 none, mkBlock 102 2 none, mkBlock 104 3 none] =
        .ok (insertOnConflict (insertOnConflict (insertOnConflict []
          ((mkBlock 100 1 none).values (canonicalParam (mkBlock 100 1 none))))
          ((mkBlock 102 2 none).values (canonicalParam (mkBlock 102 2 none))))
          ((mkBlock 104 3 none).values (canonicalParam (mkBlock 104 3 none)))) := by decide
    rw [h1]
    show EmptySlots ctx _ 100 105 = _
    rw [hq]
    decide

/-- Witness for `EmptySlots_exact`: the table has a fork at slot 102. -/
theorem EmptySlots_exact_witness :
    (∃ l, EmptySlots inTx forkTable 100 105 = .ok l ∧ l.Nodup ∧
      ∀ s, s ∈ l ↔ (100 ≤ s ∧ s ≤ 105) ∧ ∀ r ∈ forkTable, r.f_slot ≠ s) ∧
    (SetBlocks inTx [] [mkBlock 100 1 none, mkBlock 102 2 none, mkBlock 104 3 none]).bind
      (fun t1 => EmptySlots inTx t1 100 105) = .ok [101, 103, 105] :=
  EmptySlots_exact inTx forkTable 100 105 (Or.inl rfl) rfl

/-- C10, counterexample: in a table with unique keys where the blocks at slots
100 (marker unknown), 101 (marker true) and 200 (marker unknown) carry the same
root, `IndeterminateBlocks(100, 105)` returns that root, which is the root of a
block whose marker is true and of a block whose slot is outside the range. -/
theorem indeterminate_shared_root_counterexample :
    sharedRootTable.WF ∧
    SetBlocks inTx [] [mkBlock 100 1 none, mkBlock 101 1 (some true), mkBlock 200 1 none] =
      .ok sharedRootTable ∧
    ∃ l, IndeterminateBlocks inTx sharedRootTable 100 105 = .ok l ∧
      (∃ r ∈ sharedRootTable, r.f_canonical = some true ∧ r.f_root ∈ l) ∧
      (∃ r ∈ sharedRootTable, ¬ r.f_slot < 105 ∧ r.f_root ∈ l) := by
  refine ⟨by decide, by decide, [[1]], by decide, ?_, ?_⟩
  · exact ⟨(mkBlock 101 1 (some true)).values (canonicalParam (mkBlock 101 1 (some true))),
      by simp [sharedRootTable], rfl, by simp [Block.values, mkBlock]⟩
  · exact ⟨(mkBlock 200 1 none).values (canonicalParam (mkBlock 200 1 none)),
      by simp [sharedRootTable], by simp [Block.values, mkBlock],
      by simp [Block.values, mkBlock]⟩

/-- C10, amended: `IndeterminateBlocks(minSlot, maxSlot)`, with a transaction at
hand or begun, returns the roots of a list of rows that is a rearrangement of the
stored rows with unknown marker and `minSlot <= f_slot < maxSlot` (one entry for
each such row and no entry for any other row), in non-decreasing order of slot;
the list is empty when `maxSlot <= minSlot`; a root is in the result exactly when
some stored row with that root has unknown marker and its slot in range, so the
root of a row that is determined or out of range is absent whenever no other
stored row shares it. -/
theorem IndeterminateBlocks_order_membership (ctx : Ctx) (t : Table) (minSlot maxSlot : Nat)
    (hctx : ctx.tx = true ∨ ctx.beginTxFails = false) (hexec : ctx.execFails = false) :
    ∃ rows, IndeterminateBlocks ctx t minSlot maxSlot = .ok (rows.map Row.f_root) ∧
      rows.Perm (t.filter (fun r =>
        decide (r.f_canonical = none ∧ minSlot ≤ r.f_slot ∧ r.f_slot < maxSlot))) ∧
      rows.Pairwise (fun a b => a.f_slot ≤ b.f_slot) ∧
      (maxSlot ≤ minSlot → rows = []) ∧
      (∀ x, x ∈ rows.map Row.f_root ↔
        ∃ r ∈ t, r.f_root = x ∧ r.f_canonical = none ∧ minSlot ≤ r.f_slot ∧
          r.f_slot < maxSlot) ∧
      (∀ r ∈ t, ¬ (r.f_canonical = none ∧ minSlot ≤ r.f_slot ∧ r.f_slot < maxSlot) →
        (∀ q ∈ t, q.f_root = r.f_root → q = r) → r.f_root ∉ rows.map Row.f_root) := by
  have hfilter : t.filter (indeterminateWhere minSlot maxSlot) = t.filter (fun r =>
      decide (r.f_canonical = none ∧ minSlot ≤ r.f_slot ∧ r.f_slot < maxSlot)) := by
    apply List.filter_congr
    intro r _
    rw [Bool.eq_iff_iff, indeterminateWhere_iff]
    simp
  have hperm : (indeterminateRows t minSlot maxSlot).Perm (t.filter (fun r =>
      decide (r.f_canonical = none ∧ minSlot ≤ r.f_slot ∧ r.f_slot < maxSlot))) := by
    unfold indeterminateRows
    rw [← hfilter]
    exact List.perm_insertionSort _ _
  have hmem : ∀ x, x ∈ (indeterminateRows t minSlot maxSlot).map Row.f_root ↔
      ∃ r ∈ t, r.f_root = x ∧ r.f_canonical = none ∧ minSlot ≤ r.f_slot ∧
        r.f_slot < maxSlot := by
    intro x
    rw [List.mem_map]
    constructor
    · rintro ⟨r, hr, hx⟩
      rw [hperm.mem_iff, List.mem_filter] at hr
      exact ⟨r, hr.1, hx, by simpa using hr.2⟩
    · rintro ⟨r, hr, hx, hq⟩
      exact ⟨r, by rw [hperm.mem_iff, List.mem_filter]; exact ⟨hr, by simpa using hq⟩, hx⟩
  refine ⟨indeterminateRows t minSlot maxSlot, ?_, hperm, ?_, ?_, hmem, ?_⟩
  · simp [IndeterminateBlocks, query_ok hctx, hexec, indeterminateQuery]
  · exact List.sorted_insertionSort orderBySlot _
  · intro hle
    unfold indeterminateRows
    have : t.filter (indeterminateWhere minSlot maxSlot) = [] := by
      rw [List.filter_eq_nil_iff]
      intro r _ h
      rw [indeterminateWhere_iff] at h
      omega
    rw [this]
    rfl
  · intro r hr hnot huniq hin
    obtain ⟨q, hq, hroot, hqual⟩ := (hmem r.f_root).mp hin
    rw [huniq q hq hroot] at hqual
    exact hnot hqual

/-- Witness for `IndeterminateBlocks_order_membership`. -/
theorem IndeterminateBlocks_order_membership_witness :
    ∃ rows, IndeterminateBlocks inTx forkTable 100 105 = .ok (rows.map Row.f_root) ∧
      rows.Perm (forkTable.filter (fun r =>
        decide (r.f_canonical = none ∧ 100 ≤ r.f_slot ∧ r.f_slot < 105))) ∧
      rows.Pairwise (fun a b => a.f_slot ≤ b.f_slot) ∧
      (105 ≤ 100 → rows = []) ∧
      (∀ x, x ∈ rows.map Row.f_root ↔
        ∃ r ∈ forkTable, r.f_root = x ∧ r.f_canonical = none ∧ 100 ≤ r.f_slot ∧
          r.f_slot < 105) ∧
      (∀ r ∈ forkTable, ¬ (r.f_canonical = none ∧ 100 ≤ r.f_slot ∧ r.f_slot < 105) →
        (∀ q ∈ forkTable, q.f_root = r.f_root → q = r) → r.f_root ∉ rows.map Row.f_root) :=
  IndeterminateBlocks_order_membership inTx forkTable 100 105 (Or.inl rfl) rfl

/-- C8, counterexample: a block stored with unknown marker at slot 105 is not in
the result of `IndeterminateBlocks(100, 105)`, though `100 <= 105 <= 105`. -/
theorem indeterminate_inclusive_counterexample :
    (mkBlock 105 1 none).Canonical = none ∧
    100 ≤ (mkBlock 105 1 none).Slot ∧ (mkBlock 105 1 none).Slot ≤ 105 ∧
    ∃ l, (SetBlock inTx [] (mkBlock 105 1 none)).bind
        (fun t => IndeterminateBlocks inTx t 100 105) = .ok l ∧
      (mkBlock 105 1 none).Root ∉ l :=
  ⟨rfl, by decide, by decide, [], by decide, by simp⟩

/-- C8, amended: a block `b` stored by `SetBlock` with unknown marker appears in
`IndeterminateBlocks(minSlot, maxSlot)` whenever `minSlot <= b.Slot < maxSlot`;
after a further `SetBlock` for the same slot and root with marker true the result
for the same range has one occurrence of `b.Root` fewer, and none at all when no
other stored block carries that root at another slot. -/
theorem indeterminate_worklist (ctx : Ctx) (t : Table) (b b1 : Block)
    (minSlot maxSlot : Nat)
    (htx : ctx.tx = true) (hexec : ctx.execFails = false) (hwf : t.WF)
    (hb : b.Canonical = none) (hmin : minSlot ≤ b.Slot) (hmax : b.Slot < maxSlot)
    (hslot : b1.Slot = b.Slot) (hroot : b1.Root = b.Root)
    (hb1 : b1.Canonical = some true) :
    ∃ t1 l1 t2 l2, SetBlock ctx t b = .ok t1 ∧
      IndeterminateBlocks ctx t1 minSlot maxSlot = .ok l1 ∧
      SetBlock ctx t1 b1 = .ok t2 ∧
      IndeterminateBlocks ctx t2 minSlot maxSlot = .ok l2 ∧
      b.Root ∈ l1 ∧
      l2.countP (fun y => decide (y = b.Root)) + 1 =
        l1.countP (fun y => decide (y = b.Root)) ∧
      ((∀ r ∈ t, r.f_root = b.Root → r.f_slot = b.Slot) → b.Root ∉ l2) := by
  have hq : ∀ t0, IndeterminateBlocks ctx t0 minSlot maxSlot =
      .ok (indeterminateQuery t0 minSlot maxSlot) := by
    intro t0
    simp [IndeterminateBlocks, query_ok (Or.inl htx), hexec]
  let ex := b.values (canonicalParam b)
  let ex1 := b1.values (canonicalParam b1)
  have hkey : ex1.key = ex.key := by
    show (b1.Slot, b1.Root) = (b.Slot, b.Root)
    rw [hslot, hroot]
  have hexc : ex.f_canonical = none := by
    show (canonicalParam b).toColumn = none
    rw [canonicalParam_toColumn, hb]
  have hex1c : ex1.f_canonical = some true := by
    show (canonicalParam b1).toColumn = some true
    rw [canonicalParam_toColumn, hb1]
  -- the row of `b` after the first call satisfies the WHERE clause
  have hrow1 : ∀ r ∈ insertOnConflict t ex, r.key = ex.key →
      (decide (r.f_root = b.Root) && indeterminateWhere minSlot maxSlot r) = true := by
    intro r hr hk
    obtain ⟨hc, hs, hrt⟩ := mem_insertOnConflict_key hr hk
    have hs1 : r.f_slot = b.Slot := hs
    have hrt1 : r.f_root = b.Root := hrt
    rw [Bool.and_eq_true, indeterminateWhere_iff, hc, hexc, hs1]
    exact ⟨by simpa using hrt1, rfl, hmin, hmax⟩
  have hhit : ∃ r ∈ insertOnConflict t ex, r.key = ex1.key := by
    rw [hkey]
    exact insertOnConflict_mem_key t ex
  -- counting the entries for `b.Root` after the second call
  have hcount2 : (insertOnConflict (insertOnConflict t ex) ex1).countP
      (fun r => decide (r.f_root = b.Root) && indeterminateWhere minSlot maxSlot r) =
      (insertOnConflict t ex).countP (fun r =>
        (decide (r.f_root = b.Root) && indeterminateWhere minSlot maxSlot r) &&
          !decide (r.key = ex.key)) := by
    rw [insertOnConflict_hit hhit, List.countP_map]
    apply List.countP_congr
    intro r _
    simp only [Function.comp]
    by_cases hk : r.key = ex1.key
    · have hk0 : r.key = ex.key := hk.trans hkey
      simp only [if_pos hk]
      have : indeterminateWhere minSlot maxSlot (doUpdate r ex1) = false := by
        rw [Bool.eq_false_iff]
        intro h
        rw [indeterminateWhere_iff] at h
        have h1 : (doUpdate r ex1).f_canonical = ex1.f_canonical := rfl
        rw [h1, hex1c] at h
        exact Option.some_ne_none _ h.1
      simp [this, hk0]
    · have hk0 : r.key ≠ ex.key := fun h => hk (h.trans hkey.symm)
      simp [hk, hk0]
  have hcount1 : (insertOnConflict t ex).countP (fun r =>
        (decide (r.f_root = b.Root) && indeterminateWhere minSlot maxSlot r) &&
          decide (r.key = ex.key)) = 1 := by
    rw [← insertOnConflict_count t ex hwf]
    apply List.countP_congr
    intro r hr
    by_cases hk : r.key = ex.key
    · simp [hrow1 r hr hk, hk]
    · simp [hk]
  refine ⟨_, _, _, _, SetBlock_ok htx hexec t b, hq _, SetBlock_ok htx hexec _ b1, hq _,
    ?_, ?_, ?_⟩
  · obtain ⟨r, hr, hk⟩ := insertOnConflict_mem_key t ex
    have hw := hrow1 r hr hk
    rw [Bool.and_eq_true] at hw
    unfold indeterminateQuery indeterminateRows
    refine List.mem_map.mpr ⟨r, ?_, by simpa using hw.1⟩
    rw [(List.perm_insertionSort orderBySlot _).mem_iff]
    exact List.mem_filter.mpr ⟨hr, hw.2⟩
  · have hsplit := countP_split
      (fun r => decide (r.f_root = b.Root) && indeterminateWhere minSlot maxSlot r)
      (fun r => decide (r.key = ex.key)) (insertOnConflict t ex)
    rw [hcount1] at hsplit
    rw [countP_indeterminateQuery, countP_indeterminateQuery, hcount2]
    exact (Nat.add_comm _ _).trans hsplit.symm
  · intro huniq hmem
    have hpos : 0 < (indeterminateQuery (insertOnConflict (insertOnConflict t ex) ex1)
        minSlot maxSlot).countP (fun y => decide (y = b.Root)) := by
      rw [List.countP_pos_iff]
      exact ⟨_, hmem, by simp⟩
    rw [countP_indeterminateQuery, hcount2, List.countP_pos_iff] at hpos
    obtain ⟨r, hr, hp⟩ := hpos
    simp only [Bool.and_eq_true, decide_eq_true_eq, Bool.not_eq_true', decide_eq_false_iff_not]
      at hp
    obtain ⟨⟨hrt, _⟩, hk⟩ := hp
    have hrmem : r ∈ t := mem_insertOnConflict_other hr hk
    apply hk
    show (r.f_slot, r.f_root) = (b.Slot, b.Root)
    rw [huniq r hrmem hrt, hrt]

/-- Witness for `indeterminate_worklist`. -/
theorem indeterminate_worklist_witness :
    ∃ t1 l1 t2 l2, SetBlock inTx [] (mkBlock 104 1 none) = .ok t1 ∧
      IndeterminateBlocks inTx t1 100 105 = .ok l1 ∧
      SetBlock inTx t1 (mkBlock 104 1 (some true)) = .ok t2 ∧
      IndeterminateBlocks inTx t2 100 105 = .ok l2 ∧
      (mkBlock 104 1 none).Root ∈ l1 ∧
      l2.countP (fun y => decide (y = (mkBlock 104 1 none).Root)) + 1 =
        l1.countP (fun y => decide (y = (mkBlock 104 1 none).Root)) ∧
      ((∀ r ∈ ([] : Table), r.f_root = (mkBlock 104 1 none).Root →
        r.f_slot = (mkBlock 104 1 none).Slot) → (mkBlock 104 1 none).Root ∉ l2) :=
  indeterminate_worklist inTx [] (mkBlock 104 1 none) (mkBlock 104 1 (some true)) 100 105
    rfl rfl (by decide) rfl (by decide) (by decide) rfl rfl rfl

/-- C9, counterexample: a stored marker true is changed to false by one `SetBlock`
and to unknown by another. -/
theorem canonical_transition_counterexample :
    (SetBlocks inTx [] [mkBlock 7 1 (some true)]).map (fun t => canonicalAt t (7, [1])) =
      .ok (some (some true)) ∧
    (SetBlocks inTx [] [mkBlock 7 1 (some true), mkBlock 7 1 (some false)]).map
      (fun t => canonicalAt t (7, [1])) = .ok (some (some false)) ∧
    (SetBlocks inTx [] [mkBlock 7 1 (some true), mkBlock 7 1 none]).map
      (fun t => canonicalAt t (7, [1])) = .ok (some none) := by
  decide

/-- C9, amended: after any sequence of `SetBlock` calls the marker stored for a
key is the marker carried by the last call of the sequence with that key,
whatever was stored before, and is what it was when no call had that key. -/
theorem SetBlocks_canonical_last (ctx : Ctx) (bs : List Block) (t : Table) (k : Nat × Bytes)
    (htx : ctx.tx = true) (hexec : ctx.execFails = false) :
    ∃ t1, SetBlocks ctx t bs = .ok t1 ∧
      canonicalAt t1 k =
        match bs.reverse.find? (fun b => decide ((b.Slot, b.Root) = k)) with
        | some b => some b.Canonical
        | none => canonicalAt t k := by
  induction bs generalizing t with
  | nil => exact ⟨t, rfl, rfl⟩
  | cons b bs ih =>
    obtain ⟨t1, h1, h2⟩ := ih (insertOnConflict t (b.values (canonicalParam b)))
    refine ⟨t1, ?_, ?_⟩
    · simp only [SetBlocks, SetBlock_ok htx hexec]
      exact h1
    · rw [h2, List.reverse_cons, List.find?_append]
      cases hf : bs.reverse.find? (fun b => decide ((b.Slot, b.Root) = k)) with
      | some b0 => rfl
      | none =>
        rw [canonicalAt_insertOnConflict, values_key]
        by_cases hk : k = (b.Slot, b.Root)
        · simp [hk, Block.values, canonicalParam_toColumn]
        · have : (b.Slot, b.Root) ≠ k := fun h => hk h.symm
          simp [hk, this]

/-- Witness for `SetBlocks_canonical_last`. -/
theorem SetBlocks_canonical_last_witness :
    ∃ t1, SetBlocks inTx [] [mkBlock 7 1 none, mkBlock 8 2 none, mkBlock 7 1 (some true)] =
        .ok t1 ∧
      canonicalAt t1 (7, [1]) =
        match [mkBlock 7 1 none, mkBlock 8 2 none, mkBlock 7 1 (some true)].reverse.find?
          (fun b => decide ((b.Slot, b.Root) = (7, [1]))) with
        | some b => some b.Canonical
        | none => canonicalAt [] (7, [1]) :=
  SetBlocks_canonical_last inTx _ [] (7, [1]) rfl rfl

end Chaind
